import Mathlib

/-!
Verification development for the feedback-to-HTML formatting routine in
`src/App.tsx`. The routine is the inline chain of `String.replace` calls
fed to `dangerouslySetInnerHTML` (App.tsx lines 233-257):

1. `.replace(/\*\*(.*?)\*\*/g, '<strong>$1</strong>')`
2. `.replace(/^- (.*)/gm, '<li>$1</li>')`
3. `.replace(/^\d+\. (.*)/gm, '<li>$1</li>')`
4. `.replace(/(<\/strong>)\n<li>/g, '$1<ul><li>')`
5. `.replace(/(<\/li>)\n<strong>/g, '</li></ul><strong>')`
6. `.replace(/(<\/li>)\n\n<li>/g, '</li></ul><strong>')`
7. `.replace(/<li>.*?<\/li>/g, callback)` where the callback inspects
   `original.substring(0, offset).lastIndexOf(...)` for `<ul>`, `<ol>`,
   `</ul>`, `</ol>` and otherwise tests the match against `/^- /` and
   `/^\d+\. /`.

The embedding works on `List Char`. JavaScript regex semantics are modelled
exactly for the constructs used: `.` does not match `'\n'`; `(.*?)` is lazy
(shortest match); `^` with the `m` flag matches at the start of every
`'\n'`-separated line; a global replace scans left to right and resumes
after the end of each match. `'\n'` is the only line terminator considered,
which covers every input discussed by the specification.
-/

/-- `begins p s` is true iff `p` is a prefix of `s`. -/
def begins : List Char → List Char → Bool
  | [], _ => true
  | _ :: _, [] => false
  | p :: ps, c :: cs => p == c && begins ps cs

/-- `containsSub p s` is true iff `p` occurs as a contiguous substring of `s`. -/
def containsSub (p : List Char) : List Char → Bool
  | [] => begins p []
  | c :: rest => begins p (c :: rest) || containsSub p rest

/-- Split a character list at every `'\n'`; always returns at least one line. -/
def splitLines : List Char → List (List Char)
  | [] => [[]]
  | c :: rest =>
    if c = '\n' then [] :: splitLines rest
    else
      match splitLines rest with
      | [] => [[c]]
      | l :: ls => (c :: l) :: ls

/-- Rejoin lines with `'\n'`; left inverse of `splitLines`. -/
def joinLines : List (List Char) → List Char
  | [] => []
  | [l] => l
  | l :: l' :: ls => l ++ '\n' :: joinLines (l' :: ls)

def sLI : List Char := ['<', 'l', 'i', '>']

def sLIc : List Char := ['<', '/', 'l', 'i', '>']

def sStrong : List Char := ['<', 's', 't', 'r', 'o', 'n', 'g', '>']

def sStrongC : List Char := ['<', '/', 's', 't', 'r', 'o', 'n', 'g', '>']

def sULopen : List Char := ['<', 'u', 'l', '>']

def sULclose : List Char := ['<', '/', 'u', 'l', '>']

def sOLopen : List Char := ['<', 'o', 'l', '>']

def sOLclose : List Char := ['<', '/', 'o', 'l', '>']

/-- Step 2 on one line: `/^- (.*)/` replaced by `<li>$1</li>`. -/
def lineBullet (l : List Char) : List Char :=
  if begins ['-', ' '] l then sLI ++ (l.drop 2 ++ sLIc) else l

/-- Consume a maximal run of decimal digits. -/
def afterDigits : List Char → List Char
  | [] => []
  | c :: rest => if c.isDigit then afterDigits rest else c :: rest

/-- Match `/^\d+\. (.*)/` against a line, returning the captured group. -/
def numSplit (l : List Char) : Option (List Char) :=
  match l with
  | [] => none
  | c :: rest =>
    if c.isDigit then
      match afterDigits rest with
      | '.' :: ' ' :: content => some content
      | _ => none
    else none

/-- Step 3 on one line: `/^\d+\. (.*)/` replaced by `<li>$1</li>`. -/
def lineNumbered (l : List Char) : List Char :=
  match numSplit l with
  | some content => sLI ++ (content ++ sLIc)
  | none => l

/-- Step 2 of the chain: `.replace(/^- (.*)/gm, '<li>$1</li>')`. -/
def bulletPass (s : List Char) : List Char :=
  joinLines ((splitLines s).map lineBullet)

/-- Step 3 of the chain: `.replace(/^\d+\. (.*)/gm, '<li>$1</li>')`. -/
def numberPass (s : List Char) : List Char :=
  joinLines ((splitLines s).map lineNumbered)

/-- Lazy search for the closing `**` of a bold span: `(.*?)\*\*` where `.`
does not match a newline. Returns the span content and the remainder. -/
def bClose : List Char → Option (List Char × List Char)
  | [] => none
  | c :: rest =>
    if c == '*' && begins ['*'] rest then some ([], rest.drop 1)
    else if c == '\n' then none
    else (bClose rest).map (fun p => (c :: p.1, p.2))

/-- Fueled scan for step 1: `.replace(/\*\*(.*?)\*\*/g, '<strong>$1</strong>')`.
Fuel at least the input length makes the scan run to completion. -/
def boldF : Nat → List Char → List Char
  | 0, s => s
  | _ + 1, [] => []
  | fuel + 1, c :: rest =>
    if c == '*' && begins ['*'] rest then
      match bClose (rest.drop 1) with
      | some (content, rest2) => sStrong ++ (content ++ (sStrongC ++ boldF fuel rest2))
      | none => c :: boldF fuel rest
    else c :: boldF fuel rest

/-- Step 1 of the chain. -/
def boldRepl (s : List Char) : List Char := boldF s.length s

/-- Fueled global literal replacement, leftmost first, resuming after each
match, as `String.prototype.replace` with a `g`-flagged literal pattern. -/
def replF (pat rep : List Char) : Nat → List Char → List Char
  | 0, s => s
  | _ + 1, [] => []
  | fuel + 1, c :: rest =>
    if begins pat (c :: rest) then rep ++ replF pat rep fuel ((c :: rest).drop pat.length)
    else c :: replF pat rep fuel rest

/-- Global literal replacement of `pat` by `rep`. -/
def replaceAll (pat rep s : List Char) : List Char := replF pat rep s.length s

/-- Pattern of step 4: `"</strong>\n<li>"`. -/
def pat4 : List Char := sStrongC ++ '\n' :: sLI

/-- Replacement of step 4: `"</strong><ul><li>"`. -/
def rep4 : List Char := sStrongC ++ (sULopen ++ sLI)

/-- Pattern of step 5: `"</li>\n<strong>"`. -/
def pat5 : List Char := sLIc ++ '\n' :: sStrong

/-- Replacement of step 5: `"</li></ul><strong>"`. -/
def rep5 : List Char := sLIc ++ (sULclose ++ sStrong)

/-- Pattern of step 6: `"</li>\n\n<li>"`. -/
def pat6 : List Char := sLIc ++ '\n' :: '\n' :: sLI

/-- Replacement of step 6, exactly as written in the source:
`"</li></ul><strong>"` (App.tsx line 240). -/
def rep6 : List Char := sLIc ++ (sULclose ++ sStrong)

/-- Lazy search for the closing `</li>` of a list item: `(.*?)<\/li>` where
`.` does not match a newline. -/
def liClose : List Char → Option (List Char × List Char)
  | [] => none
  | c :: rest =>
    if c == '<' && begins ['/', 'l', 'i', '>'] rest then some ([], rest.drop 4)
    else if c == '\n' then none
    else (liClose rest).map (fun p => (c :: p.1, p.2))

/-- `String.prototype.lastIndexOf`: index of the last occurrence of `pat`,
or `-1` when absent. -/
def lastIdxOf (pat : List Char) : List Char → Int
  | [] => if begins pat [] then 0 else -1
  | c :: rest =>
    if lastIdxOf pat rest ≥ 0 then lastIdxOf pat rest + 1
    else if begins pat (c :: rest) then 0 else -1

/-- The replacement callback of step 7 (App.tsx lines 241-256), verbatim:
look back in `orig.substring(0, off)` for the last `<ul>`/`<ol>` and the last
`</ul>`/`</ol>`; if an open container is more recent, keep the match; else
wrap matches beginning `- ` in `<ul>` and matches beginning `\d+. ` in
`<ol>`; otherwise keep the match. -/
def liCallback (orig : List Char) (off : Nat) (m : List Char) : List Char :=
  let before := orig.take off
  let parentUl := lastIdxOf sULopen before
  let parentOl := lastIdxOf sOLopen before
  let lastListEnd := max (lastIdxOf sULclose before) (lastIdxOf sOLclose before)
  if parentUl > lastListEnd ∨ parentOl > lastListEnd then m
  else if begins ['-', ' '] m then sULopen ++ (m ++ sULclose)
  else if (numSplit m).isSome then sOLopen ++ (m ++ sOLclose)
  else m

/-- Fueled scan for step 7: `.replace(/<li>.*?<\/li>/g, callback)`.
`orig` is the full string being scanned, `off` the current index in it. -/
def wrapF (orig : List Char) : Nat → Nat → List Char → List Char
  | 0, _, s => s
  | _ + 1, _, [] => []
  | fuel + 1, off, c :: rest =>
    if c == '<' && begins ['l', 'i', '>'] rest then
      match liClose (rest.drop 3) with
      | some (content, rest2) =>
        liCallback orig off (sLI ++ (content ++ sLIc)) ++
          wrapF orig fuel (off + 9 + content.length) rest2
      | none => c :: wrapF orig fuel (off + 1) rest
    else c :: wrapF orig fuel (off + 1) rest

/-- Step 7 of the chain. -/
def wrapPass (s : List Char) : List Char := wrapF s s.length 0 s

/-- Steps 1-6 of the chain, in source order. -/
def formatNoWrapL (s : List Char) : List Char :=
  replaceAll pat6 rep6 (replaceAll pat5 rep5 (replaceAll pat4 rep4
    (numberPass (bulletPass (boldRepl s)))))

/-- The whole chain of App.tsx lines 233-257 on character lists. -/
def formatL (s : List Char) : List Char := wrapPass (formatNoWrapL s)

/-- The formatting routine on strings; the specification calls it `format`. -/
def format (s : String) : String := String.mk (formatL s.data)

/-- Fragment emission under a one-line lookback: given `f`, a fragment
function that may see only the previous line and the current line, emit the
fragments of all lines after the first. -/
def fragRest (f : List Char → List Char → List Char) :
    List Char → List (List Char) → List Char
  | _, [] => []
  | prev, l :: ls => f prev l ++ fragRest f l ls

/-- Total output of a one-line-lookback fragment emitter: `f0` emits the
fragment of the first line (which has no predecessor), `f` those of all
later lines. -/
def fragConcat (f0 : List Char → List Char)
    (f : List Char → List Char → List Char) : List (List Char) → List Char
  | [] => []
  | l :: ls => f0 l ++ fragRest f l ls

/-! ### Basic lemmas about the scanning primitives -/

theorem begins_spec : ∀ (p s : List Char), begins p s = true → s = p ++ s.drop p.length := by
  intro p
  induction p with
  | nil => intro s _; simp
  | cons p ps ih =>
    intro s h
    cases s with
    | nil => simp [begins] at h
    | cons c cs =>
      simp only [begins, Bool.and_eq_true, beq_iff_eq] at h
      obtain ⟨rfl, h2⟩ := h
      simp only [List.length_cons, List.drop_succ_cons, List.cons_append]
      exact congrArg (List.cons p) (ih cs h2)

theorem splitLines_ne_nil (s : List Char) : splitLines s ≠ [] := by
  cases s with
  | nil => simp [splitLines]
  | cons c rest =>
    simp only [splitLines]
    split
    · simp
    · split <;> simp

theorem join_split : ∀ (s : List Char), joinLines (splitLines s) = s := by
  intro s
  induction s with
  | nil => rfl
  | cons c rest ih =>
    simp only [splitLines]
    split
    · rename_i hc
      cases h' : splitLines rest with
      | nil => exact absurd h' (splitLines_ne_nil rest)
      | cons l ls =>
        rw [h'] at ih
        subst hc
        simpa [joinLines] using ih
    · cases h' : splitLines rest with
      | nil => exact absurd h' (splitLines_ne_nil rest)
      | cons l ls =>
        rw [h'] at ih
        simp only [h']
        cases ls with
        | nil =>
          simp only [joinLines] at ih ⊢
          rw [ih]
        | cons l2 ls2 =>
          simp only [joinLines] at ih ⊢
          rw [List.cons_append, ih]

theorem map_id_of (f : List Char → List Char) :
    ∀ (ls : List (List Char)), (∀ l ∈ ls, f l = l) → ls.map f = ls := by
  intro ls h
  induction ls with
  | nil => rfl
  | cons l ls ih =>
    simp only [List.map_cons]
    rw [h l (by simp), ih (fun x hx => h x (by simp [hx]))]

theorem lineBullet_id (l : List Char) (h : begins ['-', ' '] l = false) :
    lineBullet l = l := by
  simp [lineBullet, h]

theorem lineNumbered_id (l : List Char) (h : numSplit l = none) :
    lineNumbered l = l := by
  simp [lineNumbered, h]

theorem bulletPass_id (s : List Char)
    (h : ∀ l ∈ splitLines s, begins ['-', ' '] l = false) : bulletPass s = s := by
  unfold bulletPass
  rw [map_id_of _ _ (fun l hl => lineBullet_id l (h l hl)), join_split]

theorem numberPass_id (s : List Char)
    (h : ∀ l ∈ splitLines s, numSplit l = none) : numberPass s = s := by
  unfold numberPass
  rw [map_id_of _ _ (fun l hl => lineNumbered_id l (h l hl)), join_split]

theorem replF_id (pat rep : List Char) :
    ∀ (fuel : Nat) (s : List Char), containsSub pat s = false →
      replF pat rep fuel s = s := by
  intro fuel
  induction fuel with
  | zero => intro s _; rfl
  | succ n ih =>
    intro s h
    cases s with
    | nil => rfl
    | cons c rest =>
      simp only [containsSub, Bool.or_eq_false_iff] at h
      simp only [replF, h.1, Bool.false_eq_true, if_false]
      rw [ih rest h.2]

theorem replaceAll_id (pat rep s : List Char) (h : containsSub pat s = false) :
    replaceAll pat rep s = s :=
  replF_id pat rep s.length s h

/-! ### The bold pass -/

theorem boldF_id : ∀ (fuel : Nat) (s : List Char),
    containsSub ['*', '*'] s = false → boldF fuel s = s := by
  intro fuel
  induction fuel with
  | zero => intro s _; rfl
  | succ n ih =>
    intro s h
    cases s with
    | nil => rfl
    | cons c rest =>
      simp only [containsSub, Bool.or_eq_false_iff] at h
      have hg : (c == '*' && begins ['*'] rest) = false := by
        cases hcb : (c == '*' && begins ['*'] rest) with
        | false => rfl
        | true =>
          exfalso
          simp only [Bool.and_eq_true, beq_iff_eq] at hcb
          obtain ⟨rfl, hb⟩ := hcb
          have : begins ['*', '*'] ('*' :: rest) = true := by
            simp [begins, hb]
          rw [this] at h
          exact absurd h.1 (by simp)
      simp only [boldF, hg, Bool.false_eq_true, if_false]
      rw [ih rest h.2]

theorem boldRepl_id (s : List Char) (h : containsSub ['*', '*'] s = false) :
    boldRepl s = s :=
  boldF_id s.length s h

theorem bClose_spec : ∀ (l content r : List Char),
    bClose l = some (content, r) → l = content ++ ('*' :: '*' :: r) := by
  intro l
  induction l with
  | nil => intro content r h; simp [bClose] at h
  | cons c rest ih =>
    intro content r h
    simp only [bClose] at h
    split at h
    · rename_i hg
      simp only [Option.some.injEq, Prod.mk.injEq] at h
      obtain ⟨h1, h2⟩ := h
      simp only [Bool.and_eq_true, beq_iff_eq] at hg
      obtain ⟨rfl, hb⟩ := hg
      have hr := begins_spec ['*'] rest hb
      subst h1
      subst h2
      simp only [List.nil_append]
      conv_lhs => rw [hr]
      rfl
    · split at h
      · simp at h
      · cases hb : bClose rest with
        | none => rw [hb] at h; simp at h
        | some p =>
          obtain ⟨p1, p2⟩ := p
          rw [hb] at h
          simp only [Option.map_some', Option.some.injEq, Prod.mk.injEq] at h
          obtain ⟨h1, h2⟩ := h
          subst h1
          subst h2
          rw [List.cons_append]
          exact congrArg (List.cons c) (ih p1 p2 hb)

theorem bClose_length (l content r : List Char) (h : bClose l = some (content, r)) :
    content.length + r.length + 2 = l.length := by
  have := congrArg List.length (bClose_spec l content r h)
  simp [List.length_append] at this
  omega

theorem bClose_closes : ∀ (content post : List Char),
    '*' ∉ content → '\n' ∉ content →
    bClose (content ++ '*' :: '*' :: post) = some (content, post) := by
  intro content
  induction content with
  | nil =>
    intro post _ _
    simp only [List.nil_append, bClose]
    have h1 : ('*' == '*' && begins ['*'] ('*' :: post)) = true := by
      simp [begins]
    rw [h1]
    simp
  | cons c cs ih =>
    intro post h1 h2
    have hc1 : c ≠ '*' := fun hh => h1 (by simp [hh])
    have hc2 : c ≠ '\n' := fun hh => h2 (by simp [hh])
    simp only [List.cons_append, bClose, List.append_eq]
    have hg : (c == '*' && begins ['*'] (cs ++ '*' :: '*' :: post)) = false := by
      have : (c == '*') = false := by simp [hc1]
      simp [this]
    rw [hg]
    simp only [Bool.false_eq_true, if_false]
    have : (c == '\n') = false := by simp [hc2]
    rw [this]
    simp only [Bool.false_eq_true, if_false]
    rw [ih post (fun hh => h1 (by simp [hh])) (fun hh => h2 (by simp [hh]))]
    rfl

theorem boldF_fuel : ∀ (f1 f2 : Nat) (s : List Char),
    s.length ≤ f1 → s.length ≤ f2 → boldF f1 s = boldF f2 s := by
  intro f1
  induction f1 with
  | zero =>
    intro f2 s h1 _
    have : s = [] := List.length_eq_zero.mp (Nat.le_zero.mp h1)
    subst this
    cases f2 <;> rfl
  | succ n ih =>
    intro f2 s h1 h2
    cases s with
    | nil => cases f2 <;> rfl
    | cons c rest =>
      cases f2 with
      | zero => simp at h2
      | succ g =>
        simp only [List.length_cons] at h1 h2
        simp only [boldF]
        split
        · cases hb : bClose (rest.drop 1) with
          | none =>
            simp only []
            rw [ih g rest (by omega) (by omega)]
          | some p =>
            obtain ⟨content, rest2⟩ := p
            simp only []
            have hlen := bClose_length _ _ _ hb
            have hdrop : (rest.drop 1).length = rest.length - 1 := by
              simp [List.length_drop]
            rw [ih g rest2 (by omega) (by omega)]
        · rw [ih g rest (by omega) (by omega)]

theorem boldF_hom : ∀ (pre : List Char) (fuel : Nat) (content post : List Char),
    pre.length + post.length + 1 ≤ fuel → '*' ∉ pre → '*' ∉ content → '\n' ∉ content →
    boldF fuel (pre ++ '*' :: '*' :: (content ++ '*' :: '*' :: post)) =
      pre ++ (sStrong ++ (content ++ (sStrongC ++ boldF (fuel - (pre.length + 1)) post))) := by
  intro pre
  induction pre with
  | nil =>
    intro fuel content post hf _ hc1 hc2
    cases fuel with
    | zero => simp at hf
    | succ f =>
      simp only [List.nil_append, List.length_nil, boldF]
      have hg : ('*' == '*' && begins ['*'] ('*' :: (content ++ '*' :: '*' :: post))) = true := by
        simp [begins]
      rw [hg]
      simp only [if_true]
      have : ('*' :: (content ++ '*' :: '*' :: post)).drop 1 = content ++ '*' :: '*' :: post := rfl
      rw [this, bClose_closes content post hc1 hc2]
      simp only []
      have : f + 1 - (0 + 1) = f := by omega
      rw [this]
  | cons p ps ih =>
    intro fuel content post hf hp hc1 hc2
    cases fuel with
    | zero => simp at hf
    | succ f =>
      have hp1 : p ≠ '*' := fun hh => hp (by simp [hh])
      simp only [List.cons_append, boldF, List.append_eq]
      have hg : (p == '*' && begins ['*'] (ps ++ '*' :: '*' :: (content ++ '*' :: '*' :: post))) = false := by
        have : (p == '*') = false := by simp [hp1]
        simp [this]
      rw [hg]
      simp only [Bool.false_eq_true, if_false]
      simp only [List.length_cons] at hf
      rw [ih f content post (by omega) (fun hh => hp (by simp [hh])) hc1 hc2]
      have heq : f + 1 - (ps.length + 1 + 1) = f - (ps.length + 1) := by omega
      simp only [List.length_cons]
      rw [heq]

theorem boldRepl_hom (pre content post : List Char)
    (h1 : '*' ∉ pre) (h2 : '*' ∉ content) (h3 : '\n' ∉ content) :
    boldRepl (pre ++ '*' :: '*' :: (content ++ '*' :: '*' :: post)) =
      pre ++ (sStrong ++ (content ++ (sStrongC ++ boldRepl post))) := by
  unfold boldRepl
  have hlen : (pre ++ '*' :: '*' :: (content ++ '*' :: '*' :: post)).length =
      pre.length + content.length + post.length + 4 := by
    simp [List.length_append]
    omega
  rw [boldF_hom pre _ content post (by omega) h1 h2 h3]
  rw [boldF_fuel _ post.length post (by omega) (by omega)]

/-! ### The final wrapping pass is the identity -/

theorem liClose_spec : ∀ (l content r : List Char),
    liClose l = some (content, r) → l = content ++ ('<' :: '/' :: 'l' :: 'i' :: '>' :: r) := by
  intro l
  induction l with
  | nil => intro content r h; simp [liClose] at h
  | cons c rest ih =>
    intro content r h
    simp only [liClose] at h
    split at h
    · rename_i hg
      simp only [Option.some.injEq, Prod.mk.injEq] at h
      obtain ⟨h1, h2⟩ := h
      simp only [Bool.and_eq_true, beq_iff_eq] at hg
      obtain ⟨rfl, hb⟩ := hg
      have hr := begins_spec ['/', 'l', 'i', '>'] rest hb
      subst h1
      subst h2
      simp only [List.nil_append]
      conv_lhs => rw [hr]
      rfl
    · split at h
      · simp at h
      · cases hb : liClose rest with
        | none => rw [hb] at h; simp at h
        | some p =>
          obtain ⟨p1, p2⟩ := p
          rw [hb] at h
          simp only [Option.map_some', Option.some.injEq, Prod.mk.injEq] at h
          obtain ⟨h1, h2⟩ := h
          subst h1
          subst h2
          rw [List.cons_append]
          exact congrArg (List.cons c) (ih p1 p2 hb)

theorem liCallback_lt (orig : List Char) (off : Nat) (t : List Char) :
    liCallback orig off ('<' :: t) = '<' :: t := by
  have h1 : begins ['-', ' '] ('<' :: t) = false := by
    have : ('-' == '<') = false := by decide
    simp [begins, this]
  have h2 : numSplit ('<' :: t) = none := by
    have : ('<'.isDigit) = false := by decide
    simp [numSplit, this]
  simp only [liCallback]
  split
  · rfl
  · rw [h1]
    simp only [Bool.false_eq_true, if_false]
    rw [h2]
    simp

theorem wrapF_id : ∀ (fuel : Nat) (orig : List Char) (off : Nat) (s : List Char),
    wrapF orig fuel off s = s := by
  intro fuel
  induction fuel with
  | zero => intro orig off s; rfl
  | succ n ih =>
    intro orig off s
    cases s with
    | nil => rfl
    | cons c rest =>
      simp only [wrapF]
      split
      · rename_i hg
        cases hcl : liClose (rest.drop 3) with
        | none => simp [ih]
        | some p =>
          obtain ⟨content, rest2⟩ := p
          simp only []
          have hcb : liCallback orig off (sLI ++ (content ++ sLIc)) =
              sLI ++ (content ++ sLIc) := by
            have he : sLI ++ (content ++ sLIc) =
                '<' :: ('l' :: 'i' :: '>' :: (content ++ sLIc)) := rfl
            rw [he]
            exact liCallback_lt orig off _
          rw [hcb, ih]
          simp only [Bool.and_eq_true, beq_iff_eq] at hg
          obtain ⟨rfl, hb⟩ := hg
          have hrest : rest = 'l' :: 'i' :: '>' :: rest.drop 3 := by
            simpa using begins_spec ['l', 'i', '>'] rest hb
          have hspec := liClose_spec _ _ _ hcl
          conv_rhs => rw [hrest, hspec]
          simp [sLI, sLIc]
      · simp [ih]

theorem wrapPass_id (s : List Char) : wrapPass s = s :=
  wrapF_id s.length s 0 s

theorem formatL_eq_noWrap (s : List Char) : formatL s = formatNoWrapL s :=
  wrapPass_id (formatNoWrapL s)

/-! ### The claims -/

/-- C1: the claim says `"- a\n- b"` becomes a single unordered-list container
wrapping both items. The code instead emits the two bare `<li>` elements with
no `<ul>` anywhere: the container-opening rewrite (step 4) fires only after a
`</strong>`, and the wrapping callback of step 7 never fires because its
`/^- /` test runs on a match that always begins with `<li>`. -/
theorem claim_C1_bullets_left_bare :
    format "- a\n- b" = "<li>a</li>\n<li>b</li>" ∧
    containsSub sULopen (formatL "- a\n- b".data) = false ∧
    containsSub sULclose (formatL "- a\n- b".data) = false := by
  refine ⟨by decide, by decide, by decide⟩

/-- C2: the claim says the output never contains a closing list-container tag
without a matching earlier opening tag. On `"- a\n**b**"` step 5 rewrites
`</li>\n<strong>` to `</li></ul><strong>` unconditionally, emitting a `</ul>`
although no `<ul>` was ever opened. -/
theorem claim_C2_stray_closing_tag :
    formatL "- a\n**b**".data = "<li>a</li></ul><strong>b</strong>".data ∧
    containsSub sULclose (formatL "- a\n**b**".data) = true ∧
    containsSub sULopen (formatL "- a\n**b**".data) = false := by
  refine ⟨by decide, by decide, by decide⟩

/-- C3: the claim says `"- a\n\n- b"` keeps both items inside one container.
The code's step 6 rewrites `</li>\n\n<li>` to `</li></ul><strong>` (its
replacement string contradicts the comment on App.tsx line 240), so the
second item's opening tag is destroyed, a stray `</ul>` appears, and no
container wraps anything. -/
theorem claim_C3_blank_line_destroys_item :
    formatL "- a\n\n- b".data = "<li>a</li></ul><strong>b</li>".data ∧
    containsSub sULopen (formatL "- a\n\n- b".data) = false ∧
    containsSub ("<li>b</li>".data) (formatL "- a\n\n- b".data) = false := by
  refine ⟨by decide, by decide, by decide⟩

/-- C4: the claim says `"1. a\n2. b"` becomes a single ordered-list container
wrapping both items. The code emits two bare `<li>` elements and no `<ol>`
anywhere, for the same reason as in C1. -/
theorem claim_C4_numbered_left_bare :
    format "1. a\n2. b" = "<li>a</li>\n<li>b</li>" ∧
    containsSub sOLopen (formatL "1. a\n2. b".data) = false ∧
    containsSub sOLclose (formatL "1. a\n2. b".data) = false := by
  refine ⟨by decide, by decide, by decide⟩

/-- C5: the claim says that on `"- a\nplain"` a closing container tag is
emitted before `plain`. The code emits no container tag at all, open or
closing, for this input: the output is the bare item followed by the line. -/
theorem claim_C5_no_closing_before_plain :
    format "- a\nplain" = "<li>a</li>\nplain" ∧
    containsSub sULclose (formatL "- a\nplain".data) = false ∧
    containsSub sOLclose (formatL "- a\nplain".data) = false ∧
    containsSub sULopen (formatL "- a\nplain".data) = false ∧
    containsSub sOLopen (formatL "- a\nplain".data) = false := by
  refine ⟨by decide, by decide, by decide, by decide, by decide⟩

/-- C6, counterexample: `"</strong>\n<li>"` has no `**` and no line beginning
with `- ` or digits-period-space, yet `format` changes it, because step 4
matches the literal substring `</strong>\n<li>`. So `format` is not the
identity on all marker-free text as claimed. -/
theorem claim_C6_counterexample :
    containsSub ['*', '*'] "</strong>\n<li>".data = false ∧
    (∀ l ∈ splitLines "</strong>\n<li>".data, begins ['-', ' '] l = false) ∧
    (∀ l ∈ splitLines "</strong>\n<li>".data, numSplit l = none) ∧
    format "</strong>\n<li>" = "</strong><ul><li>" ∧
    (formatL "</strong>\n<li>".data == "</strong>\n<li>".data) = false := by
  refine ⟨by decide, by decide, by decide, by decide, by decide⟩

/-- C6, amended: `format` is the identity on every string with no `**`, no
line beginning with `- ` or digits-period-space, and no occurrence of the
three literal junction patterns `</li>\n<strong>`, `</strong>\n<li>` and
`</li>\n\n<li>` that steps 4-6 rewrite. -/
theorem claim_C6_identity_on_marker_free (s : List Char)
    (hB : containsSub ['*', '*'] s = false)
    (hU : ∀ l ∈ splitLines s, begins ['-', ' '] l = false)
    (hO : ∀ l ∈ splitLines s, numSplit l = none)
    (h4 : containsSub pat4 s = false)
    (h5 : containsSub pat5 s = false)
    (h6 : containsSub pat6 s = false) :
    formatL s = s := by
  unfold formatL formatNoWrapL
  rw [wrapPass_id, boldRepl_id s hB, bulletPass_id s hU, numberPass_id s hO,
    replaceAll_id pat4 rep4 s h4, replaceAll_id pat5 rep5 s h5,
    replaceAll_id pat6 rep6 s h6]

/-- C6, witness: the amended identity at the concrete marker-free input
`"hello\nworld"`. -/
theorem claim_C6_witness : formatL "hello\nworld".data = "hello\nworld".data :=
  claim_C6_identity_on_marker_free "hello\nworld".data (by decide) (by decide)
    (by decide) (by decide) (by decide) (by decide)

/-- C7: the bold pass replaces every occurrence of `**content**` by
`<strong>content</strong>` (shown here for spans whose content and left
context are star-free, the left-to-right lazy scan of the source regex);
the shortest match is taken (`"**a**b**"`), several spans on one line are
all replaced, an unpaired `**` is passed through literally, and
`"**Bold**"` yields exactly one bold wrapper around `Bold`. -/
theorem claim_C7_bold_spans :
    (∀ pre content post : List Char, '*' ∉ pre → '*' ∉ content → '\n' ∉ content →
      boldRepl (pre ++ '*' :: '*' :: (content ++ '*' :: '*' :: post)) =
        pre ++ (sStrong ++ (content ++ (sStrongC ++ boldRepl post)))) ∧
    format "**Bold**" = "<strong>Bold</strong>" ∧
    boldRepl "**a** m **b**".data = "<strong>a</strong> m <strong>b</strong>".data ∧
    boldRepl "**a**b**".data = "<strong>a</strong>b**".data ∧
    format "a ** b" = "a ** b" := by
  refine ⟨fun pre content post h1 h2 h3 => boldRepl_hom pre content post h1 h2 h3,
    by decide, by decide, by decide, by decide⟩

/-- C7, witness: the universally quantified part of the bold-span theorem at
the concrete span `"x **Bold** y"`. -/
theorem claim_C7_witness :
    boldRepl ("x ".data ++ '*' :: '*' :: ("Bold".data ++ '*' :: '*' :: " y".data)) =
      "x ".data ++ (sStrong ++ ("Bold".data ++ (sStrongC ++ boldRepl " y".data))) :=
  claim_C7_bold_spans.1 "x ".data "Bold".data " y".data (by decide) (by decide)
    (by decide)

/-- C8: `format` is total by construction (every pass of the embedding is a
total function, as is the source chain, which uses no throwing operation),
and the empty string maps to the empty string. -/
theorem claim_C8_empty_to_empty : format "" = "" ∧ formatL [] = [] := by
  refine ⟨by decide, by decide⟩

/-- C9: the claim says the fragment emitted for a line depends on at most a
one-line lookback. No fragment assignment with a one-line lookback can
reproduce `formatL`: the four inputs `"- a\n\n- b"`, `"a\n\n- b"`,
`"- a\n\nplain"`, `"a\n\nplain"` (which pairwise agree on their last two
lines) force contradictory fragment lengths, because step 6's pattern
`</li>\n\n<li>` reaches back two lines. -/
theorem claim_C9_no_one_line_lookback :
    (∃ f0 f, ∀ s : List Char, formatL s = fragConcat f0 f (splitLines s)) = False := by
  simp only [eq_iff_iff, iff_false]
  rintro ⟨f0, f, h⟩
  have eA : formatL "- a\n\n- b".data = "<li>a</li></ul><strong>b</li>".data := by decide
  have sA : splitLines "- a\n\n- b".data = [['-', ' ', 'a'], [], ['-', ' ', 'b']] := by decide
  have eB : formatL "a\n\n- b".data = "a\n\n<li>b</li>".data := by decide
  have sB : splitLines "a\n\n- b".data = [['a'], [], ['-', ' ', 'b']] := by decide
  have eC : formatL "- a\n\nplain".data = "<li>a</li>\n\nplain".data := by decide
  have sC : splitLines "- a\n\nplain".data = [['-', ' ', 'a'], [], ['p', 'l', 'a', 'i', 'n']] := by decide
  have eD : formatL "a\n\nplain".data = "a\n\nplain".data := by decide
  have sD : splitLines "a\n\nplain".data = [['a'], [], ['p', 'l', 'a', 'i', 'n']] := by decide
  have hA := h "- a\n\n- b".data
  rw [eA, sA] at hA
  have hB := h "a\n\n- b".data
  rw [eB, sB] at hB
  have hC := h "- a\n\nplain".data
  rw [eC, sC] at hC
  have hD := h "a\n\nplain".data
  rw [eD, sD] at hD
  simp only [fragConcat, fragRest, List.append_nil] at hA hB hC hD
  have lA := congrArg List.length hA
  have lB := congrArg List.length hB
  have lC := congrArg List.length hC
  have lD := congrArg List.length hD
  simp only [List.length_append] at lA lB lC lD
  rw [show ("<li>a</li></ul><strong>b</li>".data).length = 29 by decide] at lA
  rw [show ("a\n\n<li>b</li>".data).length = 13 by decide] at lB
  rw [show ("<li>a</li>\n\nplain".data).length = 17 by decide] at lC
  rw [show ("a\n\nplain".data).length = 8 by decide] at lD
  omega

/-- C10: the final wrapping pass (step 7) is the identity: the callback
returns every match unchanged because a match always begins with `<li>`, so
its `/^- /` and `/^\d+\. /` tests can never succeed, and consequently the
whole pipeline produces the same output with and without the pass. -/
theorem claim_C10_wrap_pass_identity :
    (∀ (orig : List Char) (off : Nat) (t : List Char),
      liCallback orig off ('<' :: t) = '<' :: t) ∧
    (∀ s : List Char, wrapPass s = s) ∧
    (∀ s : List Char, formatL s = formatNoWrapL s) :=
  ⟨liCallback_lt, wrapPass_id, formatL_eq_noWrap⟩
